import Mathlib

/-!
Shallow embedding of `main.py` of the britymailService repository: the
Brityworks account registry (`BrityworksAccountManager`), the FastAPI
account-management and forwarding endpoints, and the SMTP `handle_DATA`
message adapter.  Machine-level concerns (the actual HTTP transport, the
vendor's responses) are abstracted as an outcome oracle; everything the
code computes deterministically is embedded as executable Lean functions.
-/

/-! ## Python string primitives used by the source -/

/-- Python `str.lower()` restricted to the ASCII range, as used for e-mail
comparison in `get_account_by_email`. -/
def pyLower (s : String) : String := String.mk (s.data.map Char.toLower)

/-- Python `str.upper()` restricted to the ASCII range, as used for the
`"ALL"` directive comparison in `handle_DATA`. -/
def pyUpper (s : String) : String := String.mk (s.data.map Char.toUpper)

/-- The ASCII whitespace characters Python `str.strip()` removes. -/
def isPySpace (c : Char) : Bool :=
  c = ' ' || c = '\t' || c = '\n' || c = '\r' ||
  c = Char.ofNat 11 || c = Char.ofNat 12

/-- Python `str.strip()`: remove surrounding whitespace. -/
def pyStrip (s : String) : String :=
  String.mk (((s.data.dropWhile isPySpace).reverse.dropWhile
    isPySpace).reverse)

/-- The normalisation `sender_email.lower().strip()` applied by
`get_account_by_email` to both the query and each stored account e-mail. -/
def normEmail (s : String) : String := pyStrip (pyLower s)

/-- Python truthiness of an optional string argument: `None` and the empty
string are falsy (`if account_id:` / `if sender_email:` in the source). -/
def truthy : Option String → Bool
  | none => false
  | some s => s ≠ ""

/-- Python `str(x)` on an optional header value: `str(None) = "None"`,
as in `cdispo = str(part.get("Content-Disposition"))`. -/
def pyStr : Option String → String
  | none => "None"
  | some s => s

/-- Does `pat` occur as a contiguous run inside the second list? -/
def subOccurs (pat : List Char) : List Char → Bool
  | [] => pat.isEmpty
  | c :: rest => pat.isPrefixOf (c :: rest) || subOccurs pat rest

/-- Python `in` on strings: substring containment, as in
`"attachment" in cdispo`. -/
def strContains (s pat : String) : Bool := subOccurs pat.toList s.toList

/-! ## Base64 (RFC 4648), as `base64.b64encode` on the attachment bytes -/

/-- The base64 alphabet: sextet value to character. -/
def b64Char (n : Nat) : Char :=
  if n < 26 then Char.ofNat (65 + n)
  else if n < 52 then Char.ofNat (97 + (n - 26))
  else if n < 62 then Char.ofNat (48 + (n - 52))
  else if n = 62 then '+'
  else '/'

/-- Inverse of the base64 alphabet: character to sextet value. -/
def b64Index (c : Char) : Nat :=
  if 'A' ≤ c ∧ c ≤ 'Z' then c.toNat - 65
  else if 'a' ≤ c ∧ c ≤ 'z' then c.toNat - 97 + 26
  else if '0' ≤ c ∧ c ≤ '9' then c.toNat - 48 + 52
  else if c = '+' then 62
  else 63

/-- Base64-encode a byte list, three bytes to four characters, with
`=` padding, exactly as `base64.b64encode`. -/
def b64EncodeCore : List Nat → List Char
  | [] => []
  | [a] => [b64Char (a / 4), b64Char ((a % 4) * 16), '=', '=']
  | [a, b] => [b64Char (a / 4), b64Char ((a % 4) * 16 + b / 16),
               b64Char ((b % 16) * 4), '=']
  | a :: b :: c :: rest =>
      b64Char (a / 4) :: b64Char ((a % 4) * 16 + b / 16) ::
      b64Char ((b % 16) * 4 + c / 64) :: b64Char (c % 64) :: b64EncodeCore rest

/-- `base64.b64encode(...).decode('utf-8')` on a byte list. -/
def b64Encode (bs : List Nat) : String := String.mk (b64EncodeCore bs)

/-- Base64 decoding, the inverse direction (`base64.b64decode`). -/
def b64DecodeCore : List Char → List Nat
  | c1 :: c2 :: c3 :: c4 :: rest =>
      if c3 = '=' then [b64Index c1 * 4 + b64Index c2 / 16]
      else if c4 = '=' then
        [b64Index c1 * 4 + b64Index c2 / 16,
         (b64Index c2 % 16) * 16 + b64Index c3 / 4]
      else
        (b64Index c1 * 4 + b64Index c2 / 16) ::
        ((b64Index c2 % 16) * 16 + b64Index c3 / 4) ::
        ((b64Index c3 % 4) * 64 + b64Index c4) :: b64DecodeCore rest
  | _ => []

/-- Base64-decode a string back to a byte list. -/
def b64Decode (s : String) : List Nat := b64DecodeCore s.data

theorem b64Index_b64Char : ∀ n : Nat, n < 64 → b64Index (b64Char n) = n := by
  decide

theorem b64Char_ne_pad : ∀ n : Nat, n < 64 → b64Char n ≠ '=' := by
  decide

/-- Base64 round-trip on byte lists. -/
theorem b64DecodeCore_b64EncodeCore :
    ∀ bs : List Nat, (∀ x ∈ bs, x < 256) →
      b64DecodeCore (b64EncodeCore bs) = bs
  | [], _ => rfl
  | [a], h => by
      have ha : a < 256 := h a (by simp)
      simp only [b64EncodeCore, b64DecodeCore, if_true]
      rw [b64Index_b64Char _ (by omega), b64Index_b64Char _ (by omega)]
      simp only [List.cons.injEq, and_true]
      omega
  | [a, b], h => by
      have ha : a < 256 := h a (by simp)
      have hb : b < 256 := h b (by simp)
      have h3 : b64Char (b % 16 * 4) ≠ '=' := b64Char_ne_pad _ (by omega)
      simp only [b64EncodeCore, b64DecodeCore, if_neg h3, if_true]
      rw [b64Index_b64Char _ (by omega), b64Index_b64Char _ (by omega),
          b64Index_b64Char _ (by omega)]
      simp only [List.cons.injEq, and_true]
      constructor <;> omega
  | a :: b :: c :: rest, h => by
      have ha : a < 256 := h a (by simp)
      have hb : b < 256 := h b (by simp)
      have hc : c < 256 := h c (by simp)
      have h3 : b64Char (b % 16 * 4 + c / 64) ≠ '=' :=
        b64Char_ne_pad _ (by omega)
      have h4 : b64Char (c % 64) ≠ '=' := b64Char_ne_pad _ (by omega)
      have ih := b64DecodeCore_b64EncodeCore rest
        (fun x hx => h x (by simp [hx]))
      simp only [b64EncodeCore, b64DecodeCore, if_neg h3, if_neg h4]
      rw [b64Index_b64Char _ (by omega), b64Index_b64Char _ (by omega),
          b64Index_b64Char _ (by omega), b64Index_b64Char _ (by omega)]
      rw [ih]
      simp only [List.cons.injEq, and_true]
      refine ⟨by omega, by omega, by omega⟩

/-- Round-trip at the string boundary. -/
theorem b64Decode_b64Encode (bs : List Nat) (h : ∀ x ∈ bs, x < 256) :
    b64Decode (b64Encode bs) = bs :=
  b64DecodeCore_b64EncodeCore bs h

/-! ## The account registry (`BrityworksAccountManager`) -/

/-- One Brityworks account record, as stored in `accounts.json` and in
`BrityworksAccountManager.accounts`.  Cookie and header bundles are opaque
key/value lists. -/
structure Account where
  account_id : String
  email : String
  display_name : String
  cookies : List (String × String)
  headers : List (String × String)
deriving Repr, DecidableEq

/-- The manager's mutable state: the insertion-ordered dictionary
`self.accounts` (modelled as an association list with the Python `dict`
operations below) and the list `self.selected_accounts`. -/
structure ManagerState where
  accounts : List (String × Account)
  selected : List String
deriving Repr, DecidableEq

/-- `list(self.accounts.keys())`: keys in insertion order. -/
def dictKeys (d : List (String × Account)) : List String := d.map Prod.fst

/-- Python `d.get(k)`: the value stored under `k`, if any. -/
def dictGet (d : List (String × Account)) (k : String) : Option Account :=
  (d.find? (fun p => p.1 == k)).map Prod.snd

/-- Python `d[k] = v`: replace in place when the key exists (keeping its
position, as a CPython dict does), else append at the end. -/
def dictInsert (d : List (String × Account)) (k : String) (v : Account) :
    List (String × Account) :=
  if (d.find? (fun p => p.1 == k)).isSome then
    d.map (fun p => if p.1 == k then (k, v) else p)
  else d ++ [(k, v)]

/-- Python `del d[k]`: drop the entry with key `k`. -/
def dictErase (d : List (String × Account)) (k : String) :
    List (String × Account) :=
  d.filter (fun p => p.1 != k)

/-- `BrityworksAccountManager.set_selected_accounts`: empty input selects
every configured account; otherwise keep the ids that are configured keys,
failing (state unchanged) when none is. -/
def set_selected_accounts (st : ManagerState) (account_ids : List String) :
    Bool × ManagerState :=
  if account_ids.isEmpty then
    (true, { st with selected := dictKeys st.accounts })
  else
    let valid_accounts :=
      account_ids.filter (fun aid => (dictKeys st.accounts).contains aid)
    if valid_accounts.isEmpty then (false, st)
    else (true, { st with selected := valid_accounts })

/-- The loop body of `get_account_by_email`: scan the selected ids in order
for an account whose normalised e-mail equals the normalised query. -/
def findByEmail (accounts : List (String × Account)) (q : String) :
    List String → Option Account
  | [] => none
  | aid :: rest =>
      match dictGet accounts aid with
      | some account =>
          if normEmail account.email == q then some account
          else findByEmail accounts q rest
      | none => findByEmail accounts q rest

/-- `BrityworksAccountManager.get_account_by_email`: `None` on a falsy
sender, else the first selected account matching after `.lower().strip()`
normalisation of both sides. -/
def get_account_by_email (st : ManagerState) (sender_email : String) :
    Option Account :=
  if sender_email == "" then none
  else findByEmail st.accounts (normEmail sender_email) st.selected

/-- `BrityworksAccountManager.get_selected_account`: explicit id first
(only against the selected list), then sender-e-mail match, then the first
selected account. -/
def get_selected_account (st : ManagerState) (account_id : Option String)
    (sender_email : Option String) : Option Account :=
  if truthy account_id then
    if st.selected.contains (account_id.getD "") then
      dictGet st.accounts (account_id.getD "")
    else none
  else
    match (if truthy sender_email then
             get_account_by_email st (sender_email.getD "")
           else none) with
    | some account => some account
    | none =>
        match st.selected with
        | [] => none
        | fallback_id :: _ => dictGet st.accounts fallback_id

/-- `BrityworksAccountManager.get_all_selected_accounts`: every selected id
that resolves, in stored order. -/
def get_all_selected_accounts (st : ManagerState) : List Account :=
  st.selected.filterMap (dictGet st.accounts)

/-! ## The administrative HTTP endpoints

Each endpoint is a function from the manager state (plus a `save_ok` flag
standing for whether `save_accounts` succeeds at the file system) to an
`Except` of the HTTP error status and the new state. -/

/-- `POST /accounts/` (`create_account`): refuse an existing id with 400,
else insert in memory, then persist; a failed persist raises 500 after the
in-memory mutation. -/
def create_account (st : ManagerState) (account : Account) (save_ok : Bool) :
    Except Nat String × ManagerState :=
  if (dictKeys st.accounts).contains account.account_id then
    (.error 400, st)
  else
    let st1 := { st with
      accounts := dictInsert st.accounts account.account_id account }
    if save_ok then (.ok account.account_id, st1) else (.error 500, st1)

/-- `PUT /accounts/{account_id}` (`update_account`): 404 on an unknown id;
on an id rename, delete the old entry and move the id to the end of the
selected list; then store the new record under its (possibly new) id and
persist. -/
def update_account (st : ManagerState) (account_id : String)
    (account : Account) (save_ok : Bool) :
    Except Nat String × ManagerState :=
  if ¬ (dictKeys st.accounts).contains account_id then
    (.error 404, st)
  else
    let st1 :=
      if account_id ≠ account.account_id then
        { accounts := dictErase st.accounts account_id,
          selected :=
            if st.selected.contains account_id then
              (st.selected.erase account_id) ++ [account.account_id]
            else st.selected }
      else st
    let st2 := { st1 with
      accounts := dictInsert st1.accounts account.account_id account }
    if save_ok then (.ok account.account_id, st2) else (.error 500, st2)

/-- `DELETE /accounts/{account_id}` (`delete_account`): 404 on an unknown
id; else drop it from the dictionary and from the selected list, then
persist. -/
def delete_account (st : ManagerState) (account_id : String)
    (save_ok : Bool) : Except Nat String × ManagerState :=
  if ¬ (dictKeys st.accounts).contains account_id then
    (.error 404, st)
  else
    let st1 : ManagerState :=
      { accounts := dictErase st.accounts account_id,
        selected :=
          if st.selected.contains account_id then
            st.selected.erase account_id
          else st.selected }
    if save_ok then (.ok account_id, st1) else (.error 500, st1)

/-- `POST /accounts/{account_id}/select` (`select_account`): 404 on an
unknown id; append to the selected list when not already there.  No
persistence is attempted. -/
def select_account (st : ManagerState) (account_id : String) :
    Except Nat String × ManagerState :=
  if ¬ (dictKeys st.accounts).contains account_id then
    (.error 404, st)
  else if st.selected.contains account_id then (.ok account_id, st)
  else (.ok account_id, { st with selected := st.selected ++ [account_id] })

/-- `POST /accounts/{account_id}/deselect` (`deselect_account`): 404 on an
unknown id; remove from the selected list when present. -/
def deselect_account (st : ManagerState) (account_id : String) :
    Except Nat String × ManagerState :=
  if ¬ (dictKeys st.accounts).contains account_id then
    (.error 404, st)
  else if st.selected.contains account_id then
    (.ok account_id, { st with selected := st.selected.erase account_id })
  else (.ok account_id, st)

/-! ## The message adapter -/

/-- One attachment record as produced by the SMTP handler and consumed by
the FastAPI endpoint: the `filename` plus base64 `content`. -/
structure AttachmentRec where
  filename : String
  content : String
deriving Repr, DecidableEq

/-- The `ParsedEmailPayload` pydantic model posted from the SMTP handler
to `/forward-email/`. -/
structure ParsedEmailPayload where
  raw_email : String
  sender_email : String
  recipient_email : String
  subject : String
  account_id : Option String
  attachments : List AttachmentRec
deriving Repr, DecidableEq

/-- The `'from'` sub-object of the vendor JSON document. -/
structure FromBlock where
  email : String
  dcomp : String
  userID : String
  sendrIndiVal : String
deriving Repr, DecidableEq

/-- One entry of the `'recipients'` list of the vendor JSON document. -/
structure RecipientBlock where
  email : String
  recipientType : String
  directKeyin : Bool
  rcvrName : String
  displayName : String
deriving Repr, DecidableEq

/-- The variable part of `brittymail_json_data` (all remaining fields of
the template are constants independent of the message). -/
structure BrittymailData where
  contentText : String
  contentType : String
  fromBlock : FromBlock
  attachs : List AttachmentRec
  subject : String
  recipients : List RecipientBlock
deriving Repr, DecidableEq

/-- The construction of `brittymail_json_data` inside
`forward_email_to_brittymail`: the sender address appears verbatim in
`email` and `userID` and doubled as `"addr<addr>"` in `sendrIndiVal`; the
recipient is copied into `email`, `rcvrName` and `displayName`. -/
def build_brittymail_json (sender_email recipient_email subject
    raw_email_content : String) (attachments : List AttachmentRec) :
    BrittymailData :=
  { contentText := raw_email_content
    contentType := "MIME"
    fromBlock :=
      { email := sender_email
        dcomp := "O"
        userID := sender_email
        sendrIndiVal := sender_email ++ "<" ++ sender_email ++ ">" }
    attachs := attachments
    subject := subject
    recipients :=
      [{ email := recipient_email
         recipientType := "TO"
         directKeyin := false
         rcvrName := recipient_email
         displayName := recipient_email }] }

/-- `POST /forward-email/` (`forward_email_to_brittymail`) up to the point
of the outbound vendor call: resolve the account (400 when none matches),
then build the vendor JSON.  The result carries the account whose cookie
and header bundles accompany the request. -/
def forward_email_to_brittymail (st : ManagerState)
    (payload : ParsedEmailPayload) : Except Nat (Account × BrittymailData) :=
  match get_selected_account st payload.account_id
      (some payload.sender_email) with
  | none => .error 400
  | some account =>
      .ok (account,
        build_brittymail_json payload.sender_email payload.recipient_email
          payload.subject payload.raw_email payload.attachments)

/-- One part of the parsed MIME message as seen by `msg.walk()`:
its `Content-Disposition` header (absent modelled as `none`), its
`get_filename()` result, and its `get_payload(decode=True)` bytes. -/
structure MimePartRec where
  contentDisposition : Option String
  filename : Option String
  payload : List Nat
deriving Repr, DecidableEq

/-- The inbound SMTP message: the envelope (`mail_from`, `rcpt_tos`), the
decoded raw text, the `Subject` and `X-Brityworks-Account` headers, and
the parsed MIME structure (`is_multipart()` plus the `walk()` sequence). -/
structure InboundMessage where
  mail_from : String
  rcpt_tos : List String
  raw_content : String
  subject : Option String
  xBrityworksAccount : Option String
  isMultipart : Bool
  walkParts : List MimePartRec
deriving Repr, DecidableEq

/-- `envelope.mail_from if envelope.mail_from else "unknown_sender@example.com"`. -/
def effectiveSender (m : InboundMessage) : String :=
  if m.mail_from ≠ "" then m.mail_from else "unknown_sender@example.com"

/-- `envelope.rcpt_tos[0] if envelope.rcpt_tos else "unknown_recipient@example.com"`. -/
def effectiveRecipient (m : InboundMessage) : String :=
  match m.rcpt_tos with
  | [] => "unknown_recipient@example.com"
  | r :: _ => r

/-- `msg.get("Subject", "No Subject")`. -/
def effectiveSubject (m : InboundMessage) : String :=
  m.subject.getD "No Subject"

/-- The per-part test and record of the attachment loop: a record is made
when `"attachment" in str(part.get("Content-Disposition"))` and the
part carries a truthy filename; its content is the base64 payload. -/
def attachmentOfPart (part : MimePartRec) : Option AttachmentRec :=
  if strContains (pyStr part.contentDisposition) "attachment" then
    match part.filename with
    | some filename =>
        if filename ≠ "" then
          some { filename := filename, content := b64Encode part.payload }
        else none
    | none => none
  else none

/-- The attachment-extraction block of `handle_DATA`: the walk only runs
under `if msg.is_multipart():`. -/
def extractAttachments (m : InboundMessage) : List AttachmentRec :=
  if m.isMultipart then m.walkParts.filterMap attachmentOfPart
  else []

/-- The `fastapi_payload` that `handle_DATA` posts to `/forward-email/`
for one resolved account: note `sender_email` is the account's e-mail and
`account_id` forces that account. -/
def smtpPayloadFor (m : InboundMessage) (account : Account) :
    ParsedEmailPayload :=
  { raw_email := m.raw_content
    sender_email := account.email
    recipient_email := effectiveRecipient m
    subject := effectiveSubject m
    account_id := some account.account_id
    attachments := extractAttachments m }

/-- Outcome of one send attempt, as distinguished by the `except` arms of
the per-account loop in `handle_DATA`. -/
inductive SendOutcome where
  | success
  | httpStatusError (code : Nat) (body : String)
  | requestError (message : String)
  | unexpectedError (message : String)
deriving Repr, DecidableEq

/-- Did the attempt succeed (increment `success_count`)? -/
def SendOutcome.isSuccess : SendOutcome → Bool
  | .success => true
  | _ => false

/-- The value of `accounts_to_use` in `handle_DATA`: all selected accounts
under the (case-insensitive) `ALL` directive, else the singleton or empty
result of single-account resolution. -/
def accountsToUse (st : ManagerState) (m : InboundMessage) : List Account :=
  let account_id := m.xBrityworksAccount
  let send_from_all :=
    truthy account_id && (pyUpper (account_id.getD "") == "ALL")
  if send_from_all then get_all_selected_accounts st
  else
    match get_selected_account st account_id (some (effectiveSender m)) with
    | some account => [account]
    | none => []

/-- What `handle_DATA` returns and records: the SMTP response string, the
per-account attempts in order with their outcomes, and the two counters. -/
structure HandleDataResult where
  response : String
  attempts : List (ParsedEmailPayload × SendOutcome)
  success_count : Nat
  failed_count : Nat
deriving Repr, DecidableEq

/-- `CustomSMTPHandler.handle_DATA`, with the HTTP round-trip of each
attempt abstracted as the oracle `send`.  Both exits return `'250 OK'`. -/
def handle_DATA (st : ManagerState) (m : InboundMessage)
    (send : ParsedEmailPayload → SendOutcome) : HandleDataResult :=
  let accounts_to_use := accountsToUse st m
  if accounts_to_use.isEmpty then
    { response := "250 OK", attempts := [], success_count := 0,
      failed_count := 0 }
  else
    let attempts := accounts_to_use.map (fun account =>
      (smtpPayloadFor m account, send (smtpPayloadFor m account)))
    let success_count :=
      (attempts.filter (fun at1 => at1.2.isSuccess)).length
    { response := "250 OK", attempts := attempts,
      success_count := success_count,
      failed_count := attempts.length - success_count }

/-! ## State invariants of the registry -/

/-- Configured account ids are pairwise distinct (each id keys a unique
record): automatic for a Python `dict`, an explicit invariant of the
association-list model. -/
def keysNodup (st : ManagerState) : Prop := (dictKeys st.accounts).Nodup

/-- The Active Set invariant of the spec: every selected id is a
configured account id. -/
def activeSubset (st : ManagerState) : Prop :=
  ∀ aid ∈ st.selected, aid ∈ dictKeys st.accounts

/-- Every stored record carries the id it is keyed under (true of every
record the source ever stores). -/
def wellKeyed (st : ManagerState) : Prop :=
  ∀ p ∈ st.accounts, p.2.account_id = p.1

/-! ## Helper lemmas about the dictionary and resolution -/

theorem dictGet_mem {d : List (String × Account)} {k : String} {a : Account}
    (h : dictGet d k = some a) : (k, a) ∈ d := by
  unfold dictGet at h
  cases hf : d.find? (fun p => p.1 == k) with
  | none => rw [hf] at h; simp at h
  | some p =>
      rw [hf] at h
      simp only [Option.map_some', Option.some.injEq] at h
      have hp : p.1 = k := by
        have h2 := List.find?_some (p := fun q : String × Account => q.1 == k) hf
        simpa using h2
      have hm := List.mem_of_find?_eq_some hf
      have hk : p.1 = k := hp
      have hpa : p = (k, a) := by
        cases p with
        | mk x y => exact Prod.mk.injEq .. ▸ by simp_all
      rw [hpa] at hm
      exact hm

theorem dictGet_isSome_of_mem_keys {d : List (String × Account)} {k : String}
    (h : k ∈ dictKeys d) : (dictGet d k).isSome := by
  unfold dictKeys at h
  obtain ⟨p, hp, hk⟩ := List.mem_map.mp h
  have hf : (d.find? (fun q => q.1 == k)).isSome :=
    List.find?_isSome.mpr ⟨p, hp, by simpa using hk⟩
  unfold dictGet
  cases hc : d.find? (fun q => q.1 == k) with
  | none => rw [hc] at hf; simp at hf
  | some q => simp

theorem mem_keys_of_dictGet {d : List (String × Account)} {k : String}
    {a : Account} (h : dictGet d k = some a) : k ∈ dictKeys d :=
  List.mem_map.mpr ⟨(k, a), dictGet_mem h, rfl⟩

theorem wellKeyed_dictGet {st : ManagerState} {k : String} {a : Account}
    (hw : wellKeyed st) (h : dictGet st.accounts k = some a) :
    a.account_id = k :=
  hw (k, a) (dictGet_mem h)

theorem find?_isSome_of_mem_keys {d : List (String × Account)} {k : String}
    (h : k ∈ dictKeys d) : (d.find? (fun p => p.1 == k)).isSome := by
  obtain ⟨p, hp, hk⟩ := List.mem_map.mp h
  exact List.find?_isSome.mpr ⟨p, hp, by simpa using hk⟩

theorem dictKeys_dictInsert_of_mem {d : List (String × Account)} {k : String}
    (v : Account) (h : k ∈ dictKeys d) :
    dictKeys (dictInsert d k v) = dictKeys d := by
  unfold dictInsert
  rw [if_pos (find?_isSome_of_mem_keys h)]
  unfold dictKeys
  rw [List.map_map]
  apply List.map_congr_left
  intro p _
  by_cases hk : p.1 = k
  · simp [hk]
  · simp [hk]

theorem dictKeys_dictInsert_of_not_mem {d : List (String × Account)}
    {k : String} (v : Account) (h : k ∉ dictKeys d) :
    dictKeys (dictInsert d k v) = dictKeys d ++ [k] := by
  unfold dictInsert
  rw [if_neg]
  · unfold dictKeys; rw [List.map_append]; rfl
  · intro hs
    rw [List.find?_isSome] at hs
    obtain ⟨p, hp, he⟩ := hs
    exact h (List.mem_map.mpr ⟨p, hp, by simpa using he⟩)

theorem dictKeys_dictErase (d : List (String × Account)) (k : String) :
    dictKeys (dictErase d k) = (dictKeys d).filter (fun x => x != k) := by
  unfold dictErase dictKeys
  rw [List.filter_map]
  rfl

theorem findByEmail_some {accounts : List (String × Account)} {q : String} :
    ∀ {l : List String} {a : Account}, findByEmail accounts q l = some a →
      ∃ aid ∈ l, dictGet accounts aid = some a ∧ normEmail a.email = q
  | [], a, h => by simp [findByEmail] at h
  | aid :: rest, a, h => by
      rw [findByEmail] at h
      split at h
      · next account hg =>
          split at h
          · next hq =>
              cases h
              exact ⟨aid, by simp, hg, by simpa using hq⟩
          · next hq =>
              obtain ⟨aid2, h1, h2⟩ := findByEmail_some h
              exact ⟨aid2, by simp [h1], h2⟩
      · next hg =>
          obtain ⟨aid2, h1, h2⟩ := findByEmail_some h
          exact ⟨aid2, by simp [h1], h2⟩

theorem get_account_by_email_some {st : ManagerState} {s : String}
    {a : Account} (h : get_account_by_email st s = some a) :
    ∃ aid ∈ st.selected, dictGet st.accounts aid = some a ∧
      normEmail a.email = normEmail s := by
  unfold get_account_by_email at h
  by_cases hs : s == ""
  · rw [if_pos hs] at h; simp at h
  · rw [if_neg hs] at h
    exact findByEmail_some h

theorem get_selected_account_mem {st : ManagerState} {aid? s : Option String}
    {a : Account} (h : get_selected_account st aid? s = some a) :
    ∃ aid ∈ st.selected, dictGet st.accounts aid = some a := by
  unfold get_selected_account at h
  split at h
  · split at h
    · next hc => exact ⟨aid?.getD "", List.elem_iff.mp hc, h⟩
    · simp at h
  · split at h
    · next account hm =>
        cases h
        split at hm
        · obtain ⟨aid, h1, h2, _⟩ := get_account_by_email_some hm
          exact ⟨aid, h1, h2⟩
        · simp at hm
    · next hm =>
        split at h
        · simp at h
        · next fid rest hsel => exact ⟨fid, by rw [hsel]; simp, h⟩

theorem mem_accountsToUse {st : ManagerState} {m : InboundMessage}
    {a : Account} (h : a ∈ accountsToUse st m) :
    ∃ aid ∈ st.selected, dictGet st.accounts aid = some a := by
  simp only [accountsToUse] at h
  split at h
  · unfold get_all_selected_accounts at h
    obtain ⟨aid, h1, h2⟩ := List.mem_filterMap.mp h
    exact ⟨aid, h1, h2⟩
  · cases hg : get_selected_account st m.xBrityworksAccount
        (some (effectiveSender m)) with
    | some account =>
        rw [hg] at h
        simp only [List.mem_singleton] at h
        subst h
        exact get_selected_account_mem hg
    | none => rw [hg] at h; simp at h

theorem length_get_all_selected {st : ManagerState} (h : activeSubset st) :
    (get_all_selected_accounts st).length = st.selected.length := by
  unfold get_all_selected_accounts
  have key : ∀ l : List String, (∀ aid ∈ l, aid ∈ dictKeys st.accounts) →
      (l.filterMap (dictGet st.accounts)).length = l.length := by
    intro l
    induction l with
    | nil => intro _; rfl
    | cons x xs ih =>
        intro hl
        rw [List.filterMap_cons]
        cases hg : dictGet st.accounts x with
        | none =>
            exact absurd (dictGet_isSome_of_mem_keys (hl x (by simp)))
              (by simp [hg])
        | some a => simp [ih (fun aid ha => hl aid (by simp [ha]))]
  exact key st.selected h

/-! ## Further helper lemmas -/

theorem find?_replace {d : List (String × Account)} {k : String} (v : Account)
    (h : (d.find? (fun p => p.1 == k)).isSome) :
    ((d.map (fun p => if p.1 == k then (k, v) else p)).find?
      (fun p => p.1 == k)) = some (k, v) := by
  induction d with
  | nil => simp at h
  | cons p rest ih =>
      by_cases hp : (p.1 == k) = true
      · simp only [List.map_cons, if_pos hp]
        rw [List.find?_cons_of_pos]
        simp
      · have hpf : (p.1 == k) = false := by simpa using hp
        simp only [List.map_cons, if_neg hp]
        simp only [List.find?, hpf] at h ⊢
        exact ih h

theorem dictGet_dictInsert_self (d : List (String × Account)) (k : String)
    (v : Account) : dictGet (dictInsert d k v) k = some v := by
  unfold dictInsert
  by_cases hf : (d.find? (fun p => p.1 == k)).isSome
  · rw [if_pos hf]
    unfold dictGet
    rw [find?_replace v hf]
    rfl
  · rw [if_neg hf]
    unfold dictGet
    rw [List.find?_append]
    cases hc : d.find? (fun p => p.1 == k) with
    | some p => rw [hc] at hf; simp at hf
    | none => simp

theorem mem_dictKeys_dictInsert {d : List (String × Account)} {k x : String}
    (v : Account) (h : x ∈ dictKeys d) : x ∈ dictKeys (dictInsert d k v) := by
  by_cases hk : k ∈ dictKeys d
  · rw [dictKeys_dictInsert_of_mem v hk]; exact h
  · rw [dictKeys_dictInsert_of_not_mem v hk]
    exact List.mem_append_left _ h

theorem self_mem_dictKeys_dictInsert (d : List (String × Account))
    (k : String) (v : Account) : k ∈ dictKeys (dictInsert d k v) :=
  mem_keys_of_dictGet (dictGet_dictInsert_self d k v)

theorem keysNodup_dictInsert {d : List (String × Account)} {k : String}
    (v : Account) (h : (dictKeys d).Nodup) :
    (dictKeys (dictInsert d k v)).Nodup := by
  by_cases hk : k ∈ dictKeys d
  · rw [dictKeys_dictInsert_of_mem v hk]; exact h
  · rw [dictKeys_dictInsert_of_not_mem v hk]
    simp [List.nodup_append, h, hk]

theorem keysNodup_dictErase {d : List (String × Account)} (k : String)
    (h : (dictKeys d).Nodup) : (dictKeys (dictErase d k)).Nodup := by
  rw [dictKeys_dictErase]
  exact h.filter _

theorem mem_dictKeys_dictErase {d : List (String × Account)} {k x : String} :
    x ∈ dictKeys (dictErase d k) ↔ x ∈ dictKeys d ∧ x ≠ k := by
  rw [dictKeys_dictErase, List.mem_filter]
  simp

/-- The attempts list of `handle_DATA` is the per-account map over
`accounts_to_use`, in both the empty and the non-empty branch. -/
theorem handle_DATA_attempts (st : ManagerState) (m : InboundMessage)
    (send : ParsedEmailPayload → SendOutcome) :
    (handle_DATA st m send).attempts = (accountsToUse st m).map
      (fun account =>
        (smtpPayloadFor m account, send (smtpPayloadFor m account))) := by
  simp only [handle_DATA]
  split
  · next he => rw [List.isEmpty_iff.mp he]; rfl
  · rfl

/-- The two counters of `handle_DATA` always partition the attempts. -/
theorem handle_DATA_counts (st : ManagerState) (m : InboundMessage)
    (send : ParsedEmailPayload → SendOutcome) :
    (handle_DATA st m send).success_count =
      ((handle_DATA st m send).attempts.filter
        (fun pr => pr.2.isSuccess)).length ∧
    (handle_DATA st m send).failed_count =
      (handle_DATA st m send).attempts.length -
        (handle_DATA st m send).success_count := by
  simp only [handle_DATA]
  split <;> exact ⟨rfl, rfl⟩

/-- Under a (case-insensitive) `ALL` directive the accounts used are all
selected accounts. -/
theorem accountsToUse_all {st : ManagerState} {m : InboundMessage}
    {d : String} (hd : m.xBrityworksAccount = some d)
    (hALL : pyUpper d = "ALL") :
    accountsToUse st m = get_all_selected_accounts st := by
  have hne : d ≠ "" := by
    intro h
    rw [h] at hALL
    exact absurd hALL (by decide)
  have hb : (truthy (some d) && (pyUpper ((some d).getD "") == "ALL"))
      = true := by
    simp [truthy, hne, Option.getD, hALL]
  simp only [accountsToUse, hd]
  rw [if_pos hb]

theorem findByEmail_isSome {accounts : List (String × Account)} {q : String} :
    ∀ {l : List String},
      (∃ aid ∈ l, ∃ a, dictGet accounts aid = some a ∧
        normEmail a.email = q) →
      (findByEmail accounts q l).isSome
  | [], h => by simp at h
  | aid :: rest, h => by
      rw [findByEmail]
      obtain ⟨aid2, hmem, a, hget, hnorm⟩ := h
      split
      · next account hg =>
          by_cases hq : (normEmail account.email == q) = true
          · rw [if_pos hq]; rfl
          · rw [if_neg hq]
            rcases List.mem_cons.mp hmem with heq | hrest
            · subst heq
              rw [hget] at hg
              cases hg
              exact absurd (by simpa using hnorm) hq
            · exact findByEmail_isSome ⟨aid2, hrest, a, hget, hnorm⟩
      · next hg =>
          rcases List.mem_cons.mp hmem with heq | hrest
          · subst heq
            rw [hget] at hg
            simp at hg
          · exact findByEmail_isSome ⟨aid2, hrest, a, hget, hnorm⟩

/-! ## Claims -/

/-- C2: for every inbound SMTP message the handler returns the positive
acknowledgment `'250 OK'` to the transport, regardless of whether account
resolution yielded an empty list and regardless of how many per-account
send attempts failed (the theorem quantifies over every state, message
and send-outcome oracle). -/
theorem C2_always_250_OK (st : ManagerState) (m : InboundMessage)
    (send : ParsedEmailPayload → SendOutcome) :
    (handle_DATA st m send).response = "250 OK" := by
  simp only [handle_DATA]
  split <;> rfl

/-- C4: `set_selected_accounts []` makes the Active Set the full
configured key list; a non-empty id list with at least one configured id
activates exactly the configured subset; a non-empty list with no
configured id reports failure and leaves the state unchanged. -/
theorem C4_set_selected_accounts (st : ManagerState) (ids : List String) :
    (ids = [] →
      set_selected_accounts st ids =
        (true, { st with selected := dictKeys st.accounts })) ∧
    (ids ≠ [] → (∃ x ∈ ids, x ∈ dictKeys st.accounts) →
      (set_selected_accounts st ids).1 = true ∧
      (set_selected_accounts st ids).2.accounts = st.accounts ∧
      ∀ x, x ∈ (set_selected_accounts st ids).2.selected ↔
        (x ∈ ids ∧ x ∈ dictKeys st.accounts)) ∧
    (ids ≠ [] → (∀ x ∈ ids, x ∉ dictKeys st.accounts) →
      set_selected_accounts st ids = (false, st)) := by
  refine ⟨?_, ?_, ?_⟩
  · intro h
    subst h
    rfl
  · intro hne hex
    obtain ⟨x, hx, hxk⟩ := hex
    have hvne : (ids.filter
        (fun aid => (dictKeys st.accounts).contains aid)) ≠ [] := by
      intro hnil
      have : x ∈ ids.filter
          (fun aid => (dictKeys st.accounts).contains aid) :=
        List.mem_filter.mpr ⟨hx, List.elem_iff.mpr hxk⟩
      rw [hnil] at this
      simp at this
    unfold set_selected_accounts
    rw [if_neg (by simpa [List.isEmpty_iff] using hne),
        if_neg (by simpa [List.isEmpty_iff] using hvne)]
    refine ⟨rfl, rfl, fun y => ?_⟩
    simp only [List.mem_filter]
    exact ⟨fun ⟨h1, h2⟩ => ⟨h1, List.elem_iff.mp h2⟩,
           fun ⟨h1, h2⟩ => ⟨h1, List.elem_iff.mpr h2⟩⟩
  · intro hne hnone
    have hvnil : (ids.filter
        (fun aid => (dictKeys st.accounts).contains aid)) = [] := by
      rw [List.filter_eq_nil_iff]
      intro a ha
      simpa [List.elem_iff] using hnone a ha
    unfold set_selected_accounts
    rw [if_neg (by simpa [List.isEmpty_iff] using hne),
        if_pos (by simpa [List.isEmpty_iff] using hvnil)]

/-- Witness for C4 at a concrete registry. -/
theorem C4_set_selected_accounts_witness :
    set_selected_accounts
        ⟨[("a1", ⟨"a1", "a@x.com", "A", [], []⟩)], []⟩ [] =
      (true, ⟨[("a1", ⟨"a1", "a@x.com", "A", [], []⟩)], ["a1"]⟩) :=
  (C4_set_selected_accounts
    ⟨[("a1", ⟨"a1", "a@x.com", "A", [], []⟩)], []⟩ []).1 rfl

/-- C8: when persistence fails during create, the endpoint reports the
500 failure, yet the new account is present in the in-memory registry
(the mutation is not rolled back); the Active Set is untouched. -/
theorem C8_create_persist_failure (st : ManagerState) (account : Account)
    (h : account.account_id ∉ dictKeys st.accounts) :
    (create_account st account false).1 = .error 500 ∧
    account.account_id ∈
      dictKeys (create_account st account false).2.accounts ∧
    dictGet (create_account st account false).2.accounts account.account_id
      = some account ∧
    (create_account st account false).2.selected = st.selected := by
  unfold create_account
  rw [if_neg (fun hc => h (List.elem_iff.mp hc))]
  exact ⟨rfl, self_mem_dictKeys_dictInsert _ _ _,
    dictGet_dictInsert_self _ _ _, rfl⟩

/-- Witness for C8 at a concrete registry. -/
theorem C8_create_persist_failure_witness :
    (create_account ⟨[], []⟩ ⟨"n1", "n@x.com", "N", [], []⟩ false).1
        = .error 500 ∧
    "n1" ∈ dictKeys
      (create_account ⟨[], []⟩ ⟨"n1", "n@x.com", "N", [], []⟩ false).2.accounts ∧
    dictGet (create_account ⟨[], []⟩
        ⟨"n1", "n@x.com", "N", [], []⟩ false).2.accounts "n1"
      = some ⟨"n1", "n@x.com", "N", [], []⟩ ∧
    (create_account ⟨[], []⟩
        ⟨"n1", "n@x.com", "N", [], []⟩ false).2.selected = [] :=
  C8_create_persist_failure ⟨[], []⟩ ⟨"n1", "n@x.com", "N", [], []⟩
    (by decide)

/-- A registry in which the empty string is a configured, selected account
id (creatable through `POST /accounts/`, selectable through
`POST /accounts//select`). -/
def acctE3 : Account := ⟨"", "e@x.com", "E", [], []⟩

/-- A second, distinct account in that registry. -/
def acctB3 : Account := ⟨"b", "b@x.com", "B", [], []⟩

/-- The state for the C3 counterexample: both accounts configured and
selected, the empty id selected last. -/
def stC3 : ManagerState := ⟨[("", acctE3), ("b", acctB3)], ["b", ""]⟩

/-- C3 counterexample: the account id `""` is in the Active Set, yet
resolution with `explicitId = ""` does not return account `""` — Python
truthiness makes `if account_id:` skip the explicit branch, and resolution
falls through to the first-selected fallback, returning account `"b"`. -/
theorem C3_counterexample :
    "" ∈ stC3.selected ∧
    get_selected_account stC3 (some "") none = some acctB3 ∧
    acctB3.account_id ≠ "" := by decide

/-- C3 amended: for every NON-EMPTY account id X (in a well-formed state),
resolution with `explicitId = X` returns account X iff X is in the Active
Set and fails otherwise, never falling through to sender matching or the
fallback; an empty explicit id is treated as absent. -/
theorem C3_explicit_id_amended (st : ManagerState) (X : String)
    (s : Option String) (hX : X ≠ "") (hw : wellKeyed st)
    (hsub : activeSubset st) :
    (X ∈ st.selected → ∃ a, get_selected_account st (some X) s = some a ∧
        a.account_id = X) ∧
    (X ∉ st.selected → get_selected_account st (some X) s = none) := by
  have ht : truthy (some X) = true := by simp [truthy, hX]
  constructor
  · intro hmem
    unfold get_selected_account
    rw [if_pos ht]
    simp only [Option.getD]
    rw [if_pos (List.elem_iff.mpr hmem)]
    have hk : X ∈ dictKeys st.accounts := hsub X hmem
    obtain ⟨a, ha⟩ :=
      Option.isSome_iff_exists.mp (dictGet_isSome_of_mem_keys hk)
    exact ⟨a, ha, wellKeyed_dictGet hw ha⟩
  · intro hmem
    unfold get_selected_account
    rw [if_pos ht]
    simp only [Option.getD]
    rw [if_neg (fun hc => hmem (List.elem_iff.mp hc))]

/-- A one-account well-formed registry used by several witnesses. -/
def stW3 : ManagerState :=
  ⟨[("a1", ⟨"a1", "a@x.com", "A", [], []⟩)], ["a1"]⟩

/-- Witness for the amended C3 at a concrete registry. -/
theorem C3_explicit_id_amended_witness :
    ∃ a, get_selected_account stW3 (some "a1") none = some a ∧
      a.account_id = "a1" :=
  (C3_explicit_id_amended stW3 "a1" none (by decide)
    (by unfold wellKeyed; decide)
    (by unfold activeSubset; decide)).1 (by decide)

/-- C5: under a case-insensitive `ALL` directive, `handle_DATA` makes one
independent attempt per active account in stored order (the attempts list
is exactly the map of the send oracle over the selected accounts, whatever
outcomes—including failures—the oracle returns for any attempt), with one
attempt per Active Set entry, and the success/failure counters partition
the attempts. -/
theorem C5_all_fanout (st : ManagerState) (m : InboundMessage)
    (send : ParsedEmailPayload → SendOutcome) (d : String)
    (hd : m.xBrityworksAccount = some d) (hALL : pyUpper d = "ALL")
    (hsub : activeSubset st) :
    (handle_DATA st m send).attempts =
      (get_all_selected_accounts st).map
        (fun a => (smtpPayloadFor m a, send (smtpPayloadFor m a))) ∧
    (handle_DATA st m send).attempts.length = st.selected.length ∧
    (handle_DATA st m send).success_count =
      ((handle_DATA st m send).attempts.filter
        (fun pr => pr.2.isSuccess)).length ∧
    (handle_DATA st m send).failed_count =
      (handle_DATA st m send).attempts.length -
        (handle_DATA st m send).success_count := by
  have hatt := handle_DATA_attempts st m send
  rw [accountsToUse_all hd hALL] at hatt
  refine ⟨hatt, ?_, (handle_DATA_counts st m send).1,
    (handle_DATA_counts st m send).2⟩
  rw [hatt, List.length_map, length_get_all_selected hsub]

/-- Three active accounts for the C5 witness. -/
def stW5 : ManagerState :=
  ⟨[("u1", ⟨"u1", "u1@x.com", "U1", [], []⟩),
    ("u2", ⟨"u2", "u2@x.com", "U2", [], []⟩),
    ("u3", ⟨"u3", "u3@x.com", "U3", [], []⟩)],
   ["u1", "u2", "u3"]⟩

/-- A message carrying the directive in mixed case. -/
def mW5 : InboundMessage :=
  { mail_from := "s@x.com", rcpt_tos := ["r@y.com"], raw_content := "R",
    subject := some "S", xBrityworksAccount := some "aLl",
    isMultipart := false, walkParts := [] }

/-- A send oracle that fails (transport error) exactly on the second
account. -/
def sendW5 : ParsedEmailPayload → SendOutcome := fun p =>
  if p.account_id = some "u2" then .requestError "boom" else .success

/-- Witness for C5: three attempts, with the second failing and the first
and third still completing. -/
theorem C5_all_fanout_witness :
    (handle_DATA stW5 mW5 sendW5).attempts.map Prod.snd =
      [.success, .requestError "boom", .success] ∧
    (handle_DATA stW5 mW5 sendW5).attempts.length =
      stW5.selected.length := by
  have h := C5_all_fanout stW5 mW5 sendW5 "aLl" rfl (by decide)
    (by unfold activeSubset; decide)
  refine ⟨?_, h.2.1⟩
  rw [h.1]
  decide

/-- A NON-multipart inbound message that is itself an attachment part
(legal MIME: a single-part message with `Content-Disposition: attachment`
and a filename). -/
def mC6 : InboundMessage :=
  { mail_from := "s@x.com", rcpt_tos := ["r@y.com"], raw_content := "R",
    subject := some "S", xBrityworksAccount := none, isMultipart := false,
    walkParts := [⟨some "attachment; filename=a.txt", some "a.txt",
      [104, 105]⟩] }

/-- C6 counterexample: the message is not multipart, its single part has
attachment disposition and a filename, yet extraction yields no record —
the walk only runs under `if msg.is_multipart():`. -/
theorem C6_counterexample :
    mC6.isMultipart = false ∧
    mC6.walkParts.length = 1 ∧
    (∀ part ∈ mC6.walkParts,
      strContains (pyStr part.contentDisposition) "attachment" = true ∧
      ∃ f, part.filename = some f ∧ f ≠ "") ∧
    extractAttachments mC6 = [] := by decide

/-- C6 amended: for every MULTIPART inbound message, extraction walks
every part and produces one record exactly for the parts whose disposition
contains "attachment" and that carry a (non-empty) filename; each record's
content is the base64 encoding of the part's payload and round-trips to
the original bytes.  Non-multipart messages yield no records regardless of
disposition. -/
theorem C6_attachments_amended (m : InboundMessage)
    (hm : m.isMultipart = true) :
    extractAttachments m = m.walkParts.filterMap attachmentOfPart ∧
    (∀ part : MimePartRec,
      ((attachmentOfPart part).isSome ↔
        (strContains (pyStr part.contentDisposition) "attachment" = true ∧
         ∃ f, part.filename = some f ∧ f ≠ ""))) ∧
    (∀ part : MimePartRec, ∀ r, attachmentOfPart part = some r →
      (∀ x ∈ part.payload, x < 256) →
      (∃ f, part.filename = some f ∧ r.filename = f) ∧
      r.content = b64Encode part.payload ∧
      b64Decode r.content = part.payload) := by
  refine ⟨by simp [extractAttachments, hm], ?_, ?_⟩
  · intro part
    unfold attachmentOfPart
    by_cases hd : strContains (pyStr part.contentDisposition) "attachment"
      = true
    · rw [if_pos hd]
      cases hf : part.filename with
      | none => simp [hf]
      | some f =>
          by_cases hfe : f = ""
          · subst hfe
            simp [hf]
          · simp [hd, hfe]
    · rw [if_neg hd]
      simp [hd]
  · intro part r hr hb
    unfold attachmentOfPart at hr
    split at hr
    · split at hr
      · next f hf =>
          split at hr
          · next hfe =>
              cases hr
              exact ⟨⟨f, hf, rfl⟩, rfl, b64Decode_b64Encode _ hb⟩
          · simp at hr
      · simp at hr
    · simp at hr

/-- The spec's own example: one part marked attachment with filename
`a.txt`, one inline part with no filename, plus the multipart container
itself. -/
def mW6 : InboundMessage :=
  { mail_from := "s@x.com", rcpt_tos := ["r@y.com"], raw_content := "R",
    subject := some "S", xBrityworksAccount := none, isMultipart := true,
    walkParts :=
      [⟨none, none, []⟩,
       ⟨some "attachment; filename=a.txt", some "a.txt", [104, 105]⟩,
       ⟨some "inline", none, [1, 2]⟩] }

/-- Witness for the amended C6: exactly one record, named `a.txt`, whose
content round-trips through base64 to the original bytes. -/
theorem C6_attachments_amended_witness :
    extractAttachments mW6 =
      [{ filename := "a.txt", content := b64Encode [104, 105] }] ∧
    b64Decode (b64Encode [104, 105]) = [104, 105] := by
  have h := C6_attachments_amended mW6 rfl
  refine ⟨?_, ?_⟩
  · rw [h.1]; decide
  · exact (h.2.2 ⟨some "attachment; filename=a.txt", some "a.txt",
      [104, 105]⟩ ⟨"a.txt", b64Encode [104, 105]⟩ (by decide)
      (by decide)).2.2

/-- A selected account whose stored e-mail is the empty string
(creatable through `POST /accounts/`). -/
def acctE9 : Account := ⟨"e9", "", "E9", [], []⟩

/-- The state for the C9 counterexample. -/
def stC9 : ManagerState := ⟨[("e9", acctE9)], ["e9"]⟩

/-- C9 counterexample: `""` and `" "` are equal after trimming and
lowercasing, yet resolution differs — the empty sender is rejected by the
falsy guard (`if not sender_email`) while the whitespace-only sender
normalises to `""` and matches the account whose stored e-mail is
empty. -/
theorem C9_counterexample :
    normEmail "" = normEmail " " ∧
    get_account_by_email stC9 "" = none ∧
    get_account_by_email stC9 " " = some acctE9 := by decide

/-- C9 amended: for every pair of NON-EMPTY sender strings equal after the
code's lowercase-then-strip normalisation, resolution returns the same
account; any returned account's stored e-mail normalises to the query, and
whenever some selected account's stored e-mail differs from the sender
only by case or surrounding whitespace, resolution returns an account.
The empty sender string never matches (treated as absent). -/
theorem C9_sender_normalisation_amended (st : ManagerState)
    (s1 s2 : String) (h1 : s1 ≠ "") (h2 : s2 ≠ "")
    (he : normEmail s1 = normEmail s2) :
    get_account_by_email st s1 = get_account_by_email st s2 ∧
    (∀ a, get_account_by_email st s1 = some a →
      normEmail a.email = normEmail s1) ∧
    ((∃ aid ∈ st.selected, ∃ a, dictGet st.accounts aid = some a ∧
        normEmail a.email = normEmail s1) →
      (get_account_by_email st s1).isSome) := by
  refine ⟨?_, ?_, ?_⟩
  · unfold get_account_by_email
    rw [if_neg (by simpa using h1), if_neg (by simpa using h2), he]
  · intro a ha
    obtain ⟨aid, _, _, hn⟩ := get_account_by_email_some ha
    exact hn
  · intro hex
    unfold get_account_by_email
    rw [if_neg (by simpa using h1)]
    exact findByEmail_isSome hex

/-- A registry with a lower-case stored e-mail for the C9 witness. -/
def stW9 : ManagerState :=
  ⟨[("f1", ⟨"f1", "foo@bar.com", "F", [], []⟩)], ["f1"]⟩

/-- Witness for the amended C9 on the spec's example pair. -/
theorem C9_sender_normalisation_amended_witness :
    get_account_by_email stW9 " Foo@Bar.com " =
      get_account_by_email stW9 "foo@bar.com" ∧
    (get_account_by_email stW9 " Foo@Bar.com ").isSome := by
  have h := C9_sender_normalisation_amended stW9 " Foo@Bar.com "
    "foo@bar.com" (by decide) (by decide) (by decide)
  exact ⟨h.1, h.2.2 ⟨"f1", by decide, ⟨"f1", "foo@bar.com", "F", [], []⟩,
    by decide, by decide⟩⟩

/-- Decidable equality for `Except`, needed to evaluate endpoint results
on concrete inputs. -/
instance {e a : Type} [DecidableEq e] [DecidableEq a] :
    DecidableEq (Except e a) := fun x y =>
  match x, y with
  | .ok v, .ok w =>
      if h : v = w then isTrue (h ▸ rfl)
      else isFalse (fun hc => h (Except.ok.inj hc))
  | .error v, .error w =>
      if h : v = w then isTrue (h ▸ rfl)
      else isFalse (fun hc => h (Except.error.inj hc))
  | .ok _, .error _ => isFalse (fun hc => Except.noConfusion hc)
  | .error _, .ok _ => isFalse (fun hc => Except.noConfusion hc)

/-- The single configured account of the C1 counterexample. -/
def acctA1 : Account := ⟨"account_1", "acc@x.com", "A", [], []⟩

/-- State for the C1 counterexample. -/
def stC1 : ManagerState := ⟨[("account_1", acctA1)], ["account_1"]⟩

/-- A message whose envelope sender is present but differs from every
account e-mail (resolution falls back to the first selected account). -/
def mC1 : InboundMessage :=
  { mail_from := "other@y.com", rcpt_tos := ["dest@z.com"],
    raw_content := "RAW", subject := some "Hi",
    xBrityworksAccount := none, isMultipart := false, walkParts := [] }

/-- C1 counterexample: the envelope sender is present (`other@y.com`), yet
the vendor payload built for the resolved account carries the account's
e-mail `acc@x.com` in all sender fields — `handle_DATA` sets
`sender_email` to the account's e-mail, not to the effective sender. -/
theorem C1_counterexample :
    effectiveSender mC1 = "other@y.com" ∧
    (handle_DATA stC1 mC1 (fun _ => SendOutcome.success)).attempts.map
        (fun pr => forward_email_to_brittymail stC1 pr.1) =
      [Except.ok (acctA1, build_brittymail_json "acc@x.com" "dest@z.com"
        "Hi" "RAW" [])] ∧
    (build_brittymail_json "acc@x.com" "dest@z.com" "Hi" "RAW"
      []).fromBlock.email ≠ effectiveSender mC1 ∧
    (build_brittymail_json "acc@x.com" "dest@z.com" "Hi" "RAW"
      []).fromBlock.sendrIndiVal ≠
      effectiveSender mC1 ++ "<" ++ effectiveSender mC1 ++ ">" := by
  decide

/-- C1 amended: for every inbound SMTP message and every account resolved
for it, the outbound vendor payload's sender fields are built from the
RESOLVED ACCOUNT'S e-mail address (not the envelope sender): that address
appears verbatim in `from.email` and `from.userID` and doubled as
`addr<addr>` in `from.sendrIndiVal`, and the effective recipient is
duplicated into the three display-variant fields `email`, `rcvrName`,
`displayName`. -/
theorem C1_sender_fields_amended (st : ManagerState) (m : InboundMessage)
    (send : ParsedEmailPayload → SendOutcome) (p : ParsedEmailPayload)
    (o : SendOutcome) (hw : wellKeyed st)
    (hne : ∀ k ∈ dictKeys st.accounts, k ≠ "")
    (hmem : (p, o) ∈ (handle_DATA st m send).attempts) :
    ∃ a : Account,
      p = smtpPayloadFor m a ∧
      p.sender_email = a.email ∧
      forward_email_to_brittymail st p =
        .ok (a, build_brittymail_json a.email (effectiveRecipient m)
          (effectiveSubject m) m.raw_content (extractAttachments m)) ∧
      (build_brittymail_json a.email (effectiveRecipient m)
        (effectiveSubject m) m.raw_content (extractAttachments m)).fromBlock
        = { email := a.email, dcomp := "O", userID := a.email,
            sendrIndiVal := a.email ++ "<" ++ a.email ++ ">" } ∧
      (build_brittymail_json a.email (effectiveRecipient m)
        (effectiveSubject m) m.raw_content
        (extractAttachments m)).recipients
        = [{ email := effectiveRecipient m, recipientType := "TO",
             directKeyin := false, rcvrName := effectiveRecipient m,
             displayName := effectiveRecipient m }] := by
  rw [handle_DATA_attempts] at hmem
  obtain ⟨a, hmem2, heq⟩ := List.mem_map.mp hmem
  have hp : p = smtpPayloadFor m a := (congrArg Prod.fst heq).symm
  obtain ⟨aid, hsel, hget⟩ := mem_accountsToUse hmem2
  have hid : a.account_id = aid := wellKeyed_dictGet hw hget
  have hgid : dictGet st.accounts a.account_id = some a := by
    rw [hid]; exact hget
  have hidk : a.account_id ∈ dictKeys st.accounts := mem_keys_of_dictGet hgid
  have hidne : a.account_id ≠ "" := hne _ hidk
  have hres : get_selected_account st (some a.account_id) (some a.email)
      = some a := by
    unfold get_selected_account
    rw [if_pos (by simp [truthy, hidne])]
    simp only [Option.getD]
    rw [if_pos (List.elem_iff.mpr (hid ▸ hsel))]
    exact hgid
  refine ⟨a, hp, by rw [hp]; rfl, ?_, rfl, rfl⟩
  rw [hp]
  unfold forward_email_to_brittymail
  rw [show (smtpPayloadFor m a).account_id = some a.account_id from rfl,
      show (smtpPayloadFor m a).sender_email = a.email from rfl, hres]
  rfl

/-- Account of the single-account witness registry `stW3`. -/
def acctW1 : Account := ⟨"a1", "a@x.com", "A", [], []⟩

/-- A message for the C1 witness whose envelope sender matches no
account. -/
def mW1 : InboundMessage :=
  { mail_from := "someone@else.com", rcpt_tos := ["r@y.com"],
    raw_content := "RC", subject := some "Su", xBrityworksAccount := none,
    isMultipart := false, walkParts := [] }

/-- The payload `handle_DATA` posts for the resolved account in the C1
witness scenario. -/
def pW1 : ParsedEmailPayload := smtpPayloadFor mW1 acctW1

/-- Witness for the amended C1 at a concrete message and registry. -/
theorem C1_sender_fields_amended_witness :
    ∃ a : Account,
      pW1 = smtpPayloadFor mW1 a ∧
      pW1.sender_email = a.email ∧
      forward_email_to_brittymail stW3 pW1 =
        .ok (a, build_brittymail_json a.email (effectiveRecipient mW1)
          (effectiveSubject mW1) mW1.raw_content
          (extractAttachments mW1)) ∧
      (build_brittymail_json a.email (effectiveRecipient mW1)
        (effectiveSubject mW1) mW1.raw_content
        (extractAttachments mW1)).fromBlock
        = { email := a.email, dcomp := "O", userID := a.email,
            sendrIndiVal := a.email ++ "<" ++ a.email ++ ">" } ∧
      (build_brittymail_json a.email (effectiveRecipient mW1)
        (effectiveSubject mW1) mW1.raw_content
        (extractAttachments mW1)).recipients
        = [{ email := effectiveRecipient mW1, recipientType := "TO",
             directKeyin := false, rcvrName := effectiveRecipient mW1,
             displayName := effectiveRecipient mW1 }] :=
  C1_sender_fields_amended stW3 mW1 (fun _ => SendOutcome.success) pW1
    SendOutcome.success (by unfold wellKeyed; decide) (by decide)
    (by decide)

/-- Dropping one occurrence of a present element from a duplicate-free
list shortens it by exactly one. -/
theorem length_filter_ne_of_nodup {l : List String} {a : String}
    (hnd : l.Nodup) (h : a ∈ l) :
    (l.filter (fun x => x != a)).length = l.length - 1 := by
  induction l with
  | nil => simp at h
  | cons x xs ih =>
      have hx := List.nodup_cons.mp hnd
      rcases List.mem_cons.mp h with heq | hmem
      · subst heq
        have hself : xs.filter (fun y => y != a) = xs :=
          List.filter_eq_self.mpr
            (fun y hy => by
              simp only [bne_iff_ne, ne_eq, decide_eq_true_eq]
              exact fun he => hx.1 (he ▸ hy))
        rw [List.filter_cons_of_neg (by simp), hself]
        simp
      · have hxa : x ≠ a := fun he => hx.1 (he ▸ hmem)
        have hpos : 0 < xs.length :=
          List.length_pos.mpr (List.ne_nil_of_mem hmem)
        have hr := ih hx.2 hmem
        rw [List.filter_cons_of_pos (by simpa using hxa)]
        simp only [List.length_cons, hr]
        omega

/-- C10: updating `oldId` to a record whose id equals another configured
account's id succeeds, silently overwrites that account's record, shrinks
the registry by one, removes `oldId`, and moves the renamed id to the END
of the Active Set order. -/
theorem C10_update_rename_collision (st : ManagerState) (oldId : String)
    (account : Account) (h1 : oldId ∈ dictKeys st.accounts)
    (h2 : account.account_id ≠ oldId)
    (h3 : account.account_id ∈ dictKeys st.accounts)
    (hnd : keysNodup st) :
    (update_account st oldId account true).1 = .ok account.account_id ∧
    (update_account st oldId account true).2.accounts.length
        = st.accounts.length - 1 ∧
    dictGet (update_account st oldId account true).2.accounts
        account.account_id = some account ∧
    oldId ∉ dictKeys (update_account st oldId account true).2.accounts ∧
    (oldId ∈ st.selected →
      (update_account st oldId account true).2.selected
        = (st.selected.erase oldId) ++ [account.account_id]) := by
  simp only [update_account]
  rw [if_neg (fun hc => hc (List.elem_iff.mpr h1)), if_pos (Ne.symm h2),
      if_pos trivial]
  dsimp only
  have hmemE : account.account_id ∈ dictKeys (dictErase st.accounts oldId) :=
    mem_dictKeys_dictErase.mpr ⟨h3, h2⟩
  have hkeys : dictKeys (dictInsert (dictErase st.accounts oldId)
      account.account_id account) = dictKeys (dictErase st.accounts oldId) :=
    dictKeys_dictInsert_of_mem _ hmemE
  refine ⟨rfl, ?_, dictGet_dictInsert_self _ _ _, ?_, ?_⟩
  · have e1 : (dictInsert (dictErase st.accounts oldId) account.account_id
        account).length = (dictKeys (dictInsert (dictErase st.accounts
        oldId) account.account_id account)).length :=
      (List.length_map _ _).symm
    rw [e1, hkeys, dictKeys_dictErase, length_filter_ne_of_nodup hnd h1]
    rw [show (dictKeys st.accounts).length = st.accounts.length from
      List.length_map _ _]
  · rw [hkeys, mem_dictKeys_dictErase]
    simp
  · intro hmem
    rw [if_pos (List.elem_iff.mpr hmem)]

/-- Witness registry for C10: two configured accounts, both selected. -/
def stW10 : ManagerState :=
  ⟨[("a", ⟨"a", "a@x.com", "A", [], []⟩),
    ("b", ⟨"b", "b@x.com", "B", [], []⟩)], ["a", "b"]⟩

/-- The record that renames `a` onto the already-existing id `b`. -/
def acctW10 : Account := ⟨"b", "new@x.com", "NEW", [], []⟩

/-- Witness for C10 at a concrete registry. -/
theorem C10_update_rename_collision_witness :
    (update_account stW10 "a" acctW10 true).1 = .ok "b" ∧
    (update_account stW10 "a" acctW10 true).2.accounts.length = 1 ∧
    dictGet (update_account stW10 "a" acctW10 true).2.accounts "b"
      = some acctW10 ∧
    "a" ∉ dictKeys (update_account stW10 "a" acctW10 true).2.accounts ∧
    (update_account stW10 "a" acctW10 true).2.selected = ["b", "b"] := by
  have h := C10_update_rename_collision stW10 "a" acctW10 (by decide)
    (by decide) (by decide) (by unfold keysNodup; decide)
  refine ⟨h.1, h.2.1, h.2.2.1, h.2.2.2.1, ?_⟩
  rw [h.2.2.2.2 (by decide)]
  decide

/-- State for the C7 counterexample: subset invariant holds but the
Active Set list holds a duplicated id (producible through the interactive
menu, e.g. entering `1,1`). -/
def stC7 : ManagerState :=
  ⟨[("a", ⟨"a", "a@x.com", "A", [], []⟩),
    ("b", ⟨"b", "b@x.com", "B", [], []⟩)], ["a", "a"]⟩

/-- C7 counterexample: from a state satisfying the subset invariant (with
`"a"` selected twice), deleting account `"a"` removes only the FIRST
occurrence from the selected list (`list.remove`), leaving a stale id and
violating the invariant. -/
theorem C7_counterexample :
    keysNodup stC7 ∧ activeSubset stC7 ∧
    ¬ activeSubset (delete_account stC7 "a" true).2 := by
  refine ⟨?_, ?_, ?_⟩
  · unfold keysNodup
    decide
  · unfold activeSubset
    decide
  · unfold activeSubset
    decide

/-- C7 amended: from any state whose Active Set list is DUPLICATE-FREE
and a subset of the configured ids (with unique ids), every registry
operation — setActive, select, deselect, create, update (including id
rename), delete — preserves both the subset invariant and the uniqueness
of configured ids; with a duplicated Active Set entry, delete/update of
the duplicated id can leave a stale id (see the counterexample). -/
theorem C7_invariant_amended (st : ManagerState) (h1 : keysNodup st)
    (h2 : activeSubset st) (h3 : st.selected.Nodup) :
    (∀ l, keysNodup (set_selected_accounts st l).2 ∧
      activeSubset (set_selected_accounts st l).2) ∧
    (∀ i, keysNodup (select_account st i).2 ∧
      activeSubset (select_account st i).2) ∧
    (∀ i, keysNodup (deselect_account st i).2 ∧
      activeSubset (deselect_account st i).2) ∧
    (∀ a b, keysNodup (create_account st a b).2 ∧
      activeSubset (create_account st a b).2) ∧
    (∀ i a b, keysNodup (update_account st i a b).2 ∧
      activeSubset (update_account st i a b).2) ∧
    (∀ i b, keysNodup (delete_account st i b).2 ∧
      activeSubset (delete_account st i b).2) := by
  refine ⟨?_, ?_, ?_, ?_, ?_, ?_⟩
  · intro l
    simp only [set_selected_accounts]
    split
    · exact ⟨h1, fun aid ha => ha⟩
    · split
      · exact ⟨h1, h2⟩
      · refine ⟨h1, fun aid ha => ?_⟩
        exact List.elem_iff.mp (List.mem_filter.mp ha).2
  · intro i
    simp only [select_account]
    split
    · exact ⟨h1, h2⟩
    · next hcc =>
        have haid : i ∈ dictKeys st.accounts :=
          List.elem_iff.mp (not_not.mp hcc)
        split
        · exact ⟨h1, h2⟩
        · refine ⟨h1, fun x hx => ?_⟩
          rcases List.mem_append.mp hx with hx1 | hx2
          · exact h2 x hx1
          · rw [List.mem_singleton.mp hx2]
            exact haid
  · intro i
    simp only [deselect_account]
    split
    · exact ⟨h1, h2⟩
    · split
      · exact ⟨h1, fun x hx => h2 x (List.mem_of_mem_erase hx)⟩
      · exact ⟨h1, h2⟩
  · intro a b
    simp only [create_account]
    split
    · exact ⟨h1, h2⟩
    · split <;>
        exact ⟨keysNodup_dictInsert _ h1,
          fun x hx => mem_dictKeys_dictInsert _ (h2 x hx)⟩
  · intro i a b
    simp only [update_account]
    split
    · exact ⟨h1, h2⟩
    · split <;>
      · split
        · next hren =>
            dsimp only
            refine ⟨keysNodup_dictInsert _ (keysNodup_dictErase _ h1),
              fun x hx => ?_⟩
            dsimp only at hx
            split at hx
            · rcases List.mem_append.mp hx with hx1 | hx2
              · obtain ⟨hne, hmem⟩ := (List.Nodup.mem_erase_iff h3).mp hx1
                exact mem_dictKeys_dictInsert _
                  (mem_dictKeys_dictErase.mpr ⟨h2 x hmem, hne⟩)
              · rw [List.mem_singleton.mp hx2]
                exact self_mem_dictKeys_dictInsert _ _ _
            · next hcont =>
                have hne : x ≠ i :=
                  fun he => hcont (List.elem_iff.mpr (he ▸ hx))
                exact mem_dictKeys_dictInsert _
                  (mem_dictKeys_dictErase.mpr ⟨h2 x hx, hne⟩)
        · dsimp only
          exact ⟨keysNodup_dictInsert _ h1,
            fun x hx => mem_dictKeys_dictInsert _ (h2 x hx)⟩
  · intro i b
    simp only [delete_account]
    split
    · exact ⟨h1, h2⟩
    · split <;>
      · refine ⟨keysNodup_dictErase _ h1, fun x hx => ?_⟩
        dsimp only at hx
        split at hx
        · obtain ⟨hne, hmem⟩ := (List.Nodup.mem_erase_iff h3).mp hx
          exact mem_dictKeys_dictErase.mpr ⟨h2 x hmem, hne⟩
        · next hcont =>
            have hne : x ≠ i :=
              fun he => hcont (List.elem_iff.mpr (he ▸ hx))
            exact mem_dictKeys_dictErase.mpr ⟨h2 x hx, hne⟩

/-- A duplicate-free witness registry for C7. -/
def stW7 : ManagerState :=
  ⟨[("a", ⟨"a", "a@x.com", "A", [], []⟩),
    ("b", ⟨"b", "b@x.com", "B", [], []⟩)], ["a", "b"]⟩

/-- Witness for the amended C7: deleting `"a"` from the duplicate-free
state preserves both invariants. -/
theorem C7_invariant_amended_witness :
    keysNodup (delete_account stW7 "a" true).2 ∧
    activeSubset (delete_account stW7 "a" true).2 :=
  (C7_invariant_amended stW7 (by unfold keysNodup; decide)
    (by unfold activeSubset; decide) (by decide)).2.2.2.2.2 "a" true
